import Mathlib

/-!
# Verification of the CP372 client/server connection-lifecycle core

Shallow embedding of the buffered dual-mode socket reader, the framed
file-transfer codec, the connection registry, and the per-session state
machine of `src/client.py` and `src/server.py`, together with theorems
settling the frozen specification claims.

Bytes are modelled as `Nat` (a received byte is `0 ≤ b ≤ 255`; no claim
depends on the upper bound).  A scripted byte source is a list of chunks:
the successive return values of `sock.recv`; an exhausted script means the
peer has closed the connection (every further `recv` yields `b""`).
Timestamps (`now_str()`) are modelled as opaque `Nat` clock values passed
in explicitly.
-/

/-- Bytes of an ASCII string literal (models Python `s.encode("utf-8")`
for the ASCII protocol text used by both programs). -/
def strBytes (s : String) : List Nat :=
  s.data.map Char.toNat

/-- Concatenation of a chunk script, i.e. the total byte stream the
socket delivers before closing. -/
def bytesJoin : List (List Nat) → List Nat
  | [] => []
  | c :: rest => c ++ bytesJoin rest

/-- Models Python `buffer.split(b"\n", 1)` guarded by `b"\n" in buffer`:
`some (line, rest)` splits at the first newline byte, `none` when the
buffer holds no newline. -/
def splitNl : List Nat → Option (List Nat × List Nat)
  | [] => none
  | b :: rest =>
    if b = 10 then some ([], rest)
    else (splitNl rest).map (fun lr => (b :: lr.1, lr.2))

namespace SocketReader

/-- `SocketReader.readline` from `src/client.py` lines 27-36 (identical in
`src/server.py`): accumulate `recv` chunks into the buffer until it holds a
newline, returning `none` if `recv` yields no data first; then split off the
first line, discarding the delimiter.  Returns the line, the remaining
script, and the new buffer. -/
def readline : List (List Nat) → List Nat → Option (List Nat) × List (List Nat) × List Nat
  | src, buf =>
    match splitNl buf with
    | some (l, r) => (some l, src, r)
    | none =>
      match src with
      | [] => (none, [], buf)
      | c :: src' =>
        if c = [] then (none, src', buf)
        else readline src' (buf ++ c)

/-- `SocketReader.read` from `src/client.py` lines 38-48: accumulate `recv`
chunks until the buffer holds at least `n` bytes, stopping early when `recv`
yields no data; then return the first `n` bytes of the buffer (fewer when
the stream closed short) and keep the rest. -/
def read : List (List Nat) → List Nat → Nat → List Nat × List (List Nat) × List Nat
  | src, buf, n =>
    if buf.length < n then
      match src with
      | [] => (List.take n buf, [], List.drop n buf)
      | c :: src' =>
        if c = [] then (List.take n buf, src', List.drop n buf)
        else read src' (buf ++ c) n
    else (List.take n buf, src, List.drop n buf)

end SocketReader

/-- One call of the client against its `SocketReader`: a delimiter-based
line read or an exact-count binary read. -/
inductive ReadOp where
  | line : ReadOp
  | exact : Nat → ReadOp
deriving DecidableEq, Repr

/-- The bytes handed back by one `readline` call, counting the discarded
`\n` delimiter of a completed line read. -/
def lineBytes : Option (List Nat) → List Nat
  | none => []
  | some l => l ++ [10]

/-- Runs a sequence of interleaved `readline`/`read` calls against a
scripted source, returning the concatenation of all bytes handed back to
the caller — counting, for each completed line, the discarded `\n`
delimiter — together with the final script and buffer. -/
def runOps : List ReadOp → List (List Nat) → List Nat → List Nat × List (List Nat) × List Nat
  | [], src, buf => ([], src, buf)
  | ReadOp.line :: ops, src, buf =>
    let r := SocketReader.readline src buf
    let rest := runOps ops r.2.1 r.2.2
    (lineBytes r.1 ++ rest.1, rest.2.1, rest.2.2)
  | ReadOp.exact n :: ops, src, buf =>
    let r := SocketReader.read src buf n
    let rest := runOps ops r.2.1 r.2.2
    (r.1 ++ rest.1, rest.2.1, rest.2.2)

/-! ## Framed file-transfer codec -/

/-- `BUF_SIZE` from both programs. -/
def BUF_SIZE : Nat := 4096

/-- Python whitespace (`str.split` / `str.strip` with no argument). -/
def isWS (b : Nat) : Bool :=
  b = 32 || b = 9 || b = 10 || b = 13 || b = 11 || b = 12

/-- Little-endian decimal digits of `n` as ASCII bytes; the fuel argument
(always instantiated with `n` itself, which bounds the digit count) only
makes the recursion structural. -/
def decDigitsF : Nat → Nat → List Nat
  | 0, _ => []
  | fuel + 1, n => if n = 0 then [] else (n % 10 + 48) :: decDigitsF fuel (n / 10)

/-- Models Python `str(n)` for a non-negative integer, as bytes:
most-significant digit first, and `0` renders as `"0"`. -/
def decBytes (n : Nat) : List Nat :=
  if n = 0 then [48] else (decDigitsF n n).reverse

/-- Models Python `int(s)` on the all-digit tokens produced by the file
header (non-digit or empty input raises `ValueError`, reported as `none`;
the callers catch it as a failed transfer). -/
def parseDecimal (l : List Nat) : Option Nat :=
  if l ≠ [] ∧ ∀ b ∈ l, 48 ≤ b ∧ b ≤ 57 then
    some (Nat.ofDigits 10 ((l.map (fun b => b - 48)).reverse))
  else none

/-- Models `int(first_line.split()[1])` from `recv_file`
(`src/client.py` line 57) for a line already known to start with
`FILESIZE ` (checked by the client main loop before calling `recv_file`):
the second whitespace-separated token begins after the space at index 8,
and a missing token raises `IndexError` (`none`). -/
def parseSizeToken (l : List Nat) : Option Nat :=
  parseDecimal (((l.drop 9).dropWhile (fun b => isWS b)).takeWhile (fun b => !isWS b))

/-- `os.path.basename`: the part of a path after its last `/`. -/
def basenameBytes (p : List Nat) : List Nat :=
  (p.reverse.takeWhile (fun b => b != 47)).reverse

/-- The server's blob repository, externalized as a name-to-content map
(`os.path.isfile`/`getsize`/`open` on `REPO_DIR` in `src/server.py`). -/
def lookupRepo : List (List Nat × List Nat) → List Nat → Option (List Nat)
  | [], _ => none
  | (k, v) :: rest, name => if k = name then some v else lookupRepo rest name

/-- The total byte stream `send_file` (`src/server.py` lines 97-120) puts
on the wire for an existing file: the textual header
`FILESIZE <size>\nFILENAME <name>\n\n` followed by exactly the file's
bytes (the `BUF_SIZE`-chunked file reads concatenate to the content). -/
def sendFileBytes (name content : List Nat) : List Nat :=
  strBytes "FILESIZE " ++ decBytes content.length ++ [10]
    ++ strBytes "FILENAME " ++ name ++ [10] ++ [10] ++ content

/-- `send_file(conn, filepath)` with `filepath = os.path.join(REPO_DIR, filename)`:
emits the error line when the file is absent, otherwise the framed header
(whose `FILENAME` field is the basename of the path) and the payload. -/
def send_file (repo : List (List Nat × List Nat)) (filename : List Nat) : List Nat :=
  match lookupRepo repo filename with
  | none => strBytes "ERROR File not found\n"
  | some content => sendFileBytes (basenameBytes (strBytes "repo/" ++ filename)) content

/-- The payload loop of `recv_file` (`src/client.py` lines 70-76): while
bytes remain, request `min(BUF_SIZE, remaining)` from the reader, stop on
an empty result, and append each chunk to the output file.  The fuel
argument (always instantiated with the initial `remaining`, which bounds
the iteration count because every non-final iteration consumes at least
one byte) only makes the recursion structural. -/
def recvLoopF : Nat → List (List Nat) → List Nat → Nat → List Nat × List (List Nat) × List Nat
  | 0, src, buf, _ => ([], src, buf)
  | fuel + 1, src, buf, remaining =>
    if remaining = 0 then ([], src, buf)
    else
      let r := SocketReader.read src buf (min BUF_SIZE remaining)
      if r.1 = [] then ([], r.2.1, r.2.2)
      else
        let rest := recvLoopF fuel r.2.1 r.2.2 (remaining - r.1.length)
        (r.1 ++ rest.1, rest.2.1, rest.2.2)

/-- The `recv_file` payload loop; the first component is the byte sequence
written to the output file. -/
def recvLoop (src : List (List Nat)) (buf : List Nat) (remaining : Nat) :
    List Nat × List (List Nat) × List Nat :=
  recvLoopF remaining src buf remaining

/-- `recv_file(reader, first_line)` from `src/client.py` lines 50-80,
after the size has been parsed from the `FILESIZE` line: reads the
`FILENAME` line (errors out if absent or not so prefixed), discards the
blank line, then runs the payload loop.  `some (filename, written)`
corresponds to reaching the final `[DOWNLOADED]` message; `none` to the
`[ERROR] Invalid file header` early return. -/
def recvFile (src : List (List Nat)) (buf : List Nat) (size : Nat) :
    Option (List Nat × List Nat) :=
  let r1 := SocketReader.readline src buf
  match r1.1 with
  | none => none
  | some fl =>
    if (strBytes "FILENAME ").isPrefixOf fl then
      let r2 := SocketReader.readline r1.2.1 r1.2.2
      let r3 := recvLoop r2.2.1 r2.2.2 size
      some (fl.drop 9, r3.1)
    else none

/-- The client main loop's dispatch of a `FILESIZE`-prefixed response line
(`src/client.py` lines 132-141 into `recv_file`): read one line from a
fresh reader, and on a `FILESIZE` header parse the size and receive the
file. -/
def clientRecvTransfer (src : List (List Nat)) : Option (List Nat × List Nat) :=
  let r := SocketReader.readline src []
  match r.1 with
  | none => none
  | some line =>
    if (strBytes "FILESIZE ").isPrefixOf line then
      match parseSizeToken line with
      | none => none
      | some size => recvFile r.2.1 r.2.2 size
    else none

/-- `out_path = os.path.join(DOWNLOADS_DIR, filename)` from
`src/client.py` line 67; `os.path.join` discards the left part when the
right part is absolute, and otherwise inserts a single separator. -/
def pyJoin (a b : List Nat) : List Nat :=
  if b.head? = some 47 then b else a ++ [47] ++ b

/-- The output path the client writes the received file to. -/
def out_path (filename : List Nat) : List Nat :=
  pyJoin (strBytes "downloads") filename

/-- Path components (split on `/`). -/
def splitSlash : List Nat → List (List Nat)
  | [] => [[]]
  | b :: rest =>
    match splitSlash rest with
    | [] => [[b]]
    | g :: gs => if b = 47 then [] :: g :: gs else (b :: g) :: gs

/-- POSIX-style lexical normalization of a relative path: drop empty and
`.` components, let `..` cancel a preceding real component and survive at
the front otherwise.  Used only to state where a computed path points. -/
def normStack (acc : List (List Nat)) : List (List Nat) → List (List Nat)
  | [] => acc.reverse
  | c :: cs =>
    if c = [] || c = [46] then normStack acc cs
    else if c = [46, 46] then
      match acc with
      | [] => normStack [[46, 46]] cs
      | t :: acc2 => if t = [46, 46] then normStack ([46, 46] :: t :: acc2) cs else normStack acc2 cs
    else normStack (c :: acc) cs

/-- Normalized component list of a relative path. -/
def normRel (p : List Nat) : List (List Nat) :=
  normStack [] (splitSlash p)

/-! ## Connection registry and session state machine -/

/-- One entry of `clients_cache` (`src/server.py` lines 56-64): peer
address string, connect/disconnect timestamps (opaque clock values), and
the active flag. -/
structure ClientRecord where
  addr : List Nat
  connected_at : Nat
  disconnected_at : Option Nat
  active : Bool
deriving DecidableEq, Repr

/-- `clients_cache`: a Python dict keyed by session name, modelled as an
insertion-ordered association list with unique keys (assignment to an
existing key replaces the value in place, a new key appends). -/
abbrev Cache := List (List Nat × ClientRecord)

/-- `add_client_record(name, addr)` (`src/server.py` lines 56-64):
`clients_cache[name] = {...}` — an unconditional dict assignment with a
fresh all-active record. -/
def add_client_record (name addr : List Nat) (now : Nat) : Cache → Cache
  | [] => [(name, ⟨addr, now, none, true⟩)]
  | (k, v) :: rest =>
    if k = name then (k, ⟨addr, now, none, true⟩) :: rest
    else (k, v) :: add_client_record name addr now rest

/-- `close_client_record(name)` (`src/server.py` lines 66-71): if the name
is present, set `active = False` and overwrite `disconnected_at` with the
current time; otherwise do nothing. -/
def close_client_record (name : List Nat) (now : Nat) : Cache → Cache
  | [] => []
  | (k, v) :: rest =>
    if k = name then (k, { v with active := false, disconnected_at := some now }) :: rest
    else (k, v) :: close_client_record name now rest

/-- `current_active_count()` (`src/server.py` lines 51-54). -/
def current_active_count (c : Cache) : Nat :=
  (c.filter (fun kv => kv.2.active)).length

/-- Record lookup in the cache (Python `clients_cache[name]` /
`name in clients_cache`). -/
def lookupC : Cache → List Nat → Option ClientRecord
  | [], _ => none
  | (k, v) :: rest, name => if k = name then some v else lookupC rest name

/-- One line of `format_status` (`src/server.py` lines 81-87); a `None`
disconnect timestamp prints as Python's `None`. -/
def statusLine (name : List Nat) (r : ClientRecord) : List Nat :=
  name ++ strBytes " ["
    ++ (if r.active then strBytes "ACTIVE" else strBytes "DISCONNECTED")
    ++ strBytes "] | addr=" ++ r.addr
    ++ strBytes " | connected=" ++ decBytes r.connected_at
    ++ strBytes " | disconnected="
    ++ (match r.disconnected_at with
        | none => strBytes "None"
        | some t => decBytes t)

/-- `format_status()` (`src/server.py` lines 73-88) as the list of lines
the later `split('\n')` recovers (no produced line contains a newline). -/
def format_status (cache : Cache) : List (List Nat) :=
  strBytes "=== Server Cache ===" ::
    (match cache with
     | [] => [strBytes "(no connections yet)"]
     | _ => cache.map (fun kv => statusLine kv.1 kv.2))

/-- Lexicographic byte-list comparison (Python `<` on ASCII strings). -/
def lexLt : List Nat → List Nat → Bool
  | [], [] => false
  | [], _ :: _ => true
  | _ :: _, [] => false
  | a :: as, b :: bs => if a < b then true else if b < a then false else lexLt as bs

/-- Insertion into a sorted list of names. -/
def insSorted (x : List Nat) : List (List Nat) → List (List Nat)
  | [] => [x]
  | y :: ys => if lexLt y x then y :: insSorted x ys else x :: y :: ys

/-- `sorted(os.listdir(REPO_DIR))`. -/
def sortBytes (l : List (List Nat)) : List (List Nat) :=
  l.foldr insSorted []

/-- `"\n".join(files)`. -/
def joinNl : List (List Nat) → List Nat
  | [] => []
  | [x] => x
  | x :: y :: xs => x ++ [10] ++ joinNl (y :: xs)

/-- The single text write of the `list` branch (`src/server.py` lines
171-178): the listing (or the empty-repository placeholder) plus a
newline. -/
def listOut (repo : List (List Nat × List Nat)) : List Nat :=
  (match sortBytes (repo.map Prod.fst) with
   | [] => strBytes "=== Available Files ===\n(repository is empty)"
   | f :: fs => strBytes "=== Available Files ===\n" ++ joinNl (f :: fs)) ++ [10]

/-- The `get <filename>` branch (`src/server.py` lines 183-190):
`msg.split(maxsplit=1)` has a second part exactly when something
non-whitespace follows `get `, and that part is then `strip()`ed and
served by `send_file`. -/
def getOut (repo : List (List Nat × List Nat)) (m : List Nat) : List (List Nat) :=
  match (m.drop 4).dropWhile (fun b => isWS b) with
  | [] => [strBytes "ERROR Usage: get <filename>\n"]
  | r :: rs => [send_file repo (((r :: rs).reverse.dropWhile (fun b => isWS b)).reverse)]

/-- Result of one iteration of the `Serving` command loop: the text
payloads written for this message, and whether the loop `break`s
(transition to `Closed`) or continues reading. -/
inductive StepRes where
  | closed (outs : List (List Nat))
  | cont (outs : List (List Nat))
deriving DecidableEq, Repr

/-- One iteration of the command loop of `handle_client`
(`src/server.py` lines 145-194): `msg` is the line `readline` returned
(`none` at end-of-stream).  `if not msg: break` fires on both `none` and
the empty line; then the dispatch tries `exit`, `status`, `list`,
`get `-prefixed, and finally echoes with ` ACK`. -/
def servingStep (repo : List (List Nat × List Nat)) (cache : Cache)
    (msg : Option (List Nat)) : StepRes :=
  match msg with
  | none => StepRes.closed []
  | some m =>
    if m = [] then StepRes.closed []
    else if m = strBytes "exit" then StepRes.closed [strBytes "BYE\n"]
    else if m = strBytes "status" then
      StepRes.cont ((format_status cache).map (fun l => l ++ [10]) ++ [[10]])
    else if m = strBytes "list" then StepRes.cont [listOut repo]
    else if (strBytes "get ").isPrefixOf m then StepRes.cont (getOut repo m)
    else StepRes.cont [m ++ strBytes " ACK\n"]

/-- The handshake phase of `handle_client` (`src/server.py` lines
127-142): send `ASSIGNED <name>`, read one line, adopt the claimed name
only when the line is non-empty and starts with `NAME ` (otherwise keep
the assigned name), register the record unconditionally, and send the
`HELLO` welcome.  Returns the text lines sent, the adopted name, and the
updated cache. -/
def handshake (assigned addr : List Nat) (now : Nat) (firstLine : Option (List Nat))
    (cache : Cache) : List (List Nat) × List Nat × Cache :=
  let name := match firstLine with
    | none => assigned
    | some l => if !l.isEmpty && (strBytes "NAME ").isPrefixOf l then l.drop 5 else assigned
  ([strBytes "ASSIGNED " ++ assigned ++ [10],
    strBytes "HELLO " ++ name ++ strBytes ". Commands: status | list | get <file> | exit" ++ [10]],
   name, add_client_record name addr now cache)

/-- `MAX_CLIENTS` (`src/server.py` line 16). -/
def MAX_CLIENTS : Nat := 3

/-- The capacity-rejection line (`src/server.py` line 227). -/
def capacityLine : List Nat :=
  strBytes "ERROR Server at capacity (max 3 clients). Try again later.\n"

/-- `f"Client{n:02d}"` (`src/server.py` line 234). -/
def clientName (n : Nat) : List Nat :=
  strBytes "Client" ++ (if n < 10 then 48 :: decBytes n else decBytes n)

/-- The accept loop's shared state: the monotone `client_counter` and the
registry. -/
structure ServerState where
  counter : Nat
  cache : Cache
deriving DecidableEq

/-- Outcome of one `server.accept()` iteration (`src/server.py` lines
220-238) for the new raw connection: either the capacity rejection (the
listed lines are written and the connection closed, no session spawned)
or admission under a freshly minted name. -/
inductive AcceptRes where
  | rejected (sent : List (List Nat))
  | admitted (name : List Nat)
deriving DecidableEq

/-- One iteration of the accept loop, up to the spawn of
`handle_client`: reject when the active count has reached `MAX_CLIENTS`
(state untouched), otherwise increment the counter and mint the name
handed to the new session thread. -/
def acceptStep (st : ServerState) : AcceptRes × ServerState :=
  if current_active_count st.cache ≥ MAX_CLIENTS then
    (AcceptRes.rejected [capacityLine], st)
  else
    (AcceptRes.admitted (clientName (st.counter + 1)),
     { st with counter := st.counter + 1 })

example : SocketReader.readline [[72, 10, 65]] [] = (some [72], [], [65]) := by decide
example : SocketReader.read [[1, 2], [3]] [] 3 = ([1, 2, 3], [], []) := by decide
example : strBytes "NAME " = [78, 65, 77, 69, 32] := by decide
example :
    runOps [ReadOp.exact 2, ReadOp.line] [[1, 2, 65], [10, 9]] [] =
      ([1, 2, 65, 10], [], [9]) := by decide

theorem bytesJoin_cons (c : List Nat) (rest : List (List Nat)) :
    bytesJoin (c :: rest) = c ++ bytesJoin rest := rfl

theorem splitNl_eq : ∀ l a b : List Nat, splitNl l = some (a, b) → l = a ++ 10 :: b := by
  intro l
  induction l with
  | nil => intro a b h; exact absurd h (by simp [splitNl])
  | cons x rest ih =>
    intro a b h
    simp only [splitNl] at h
    by_cases hx : x = 10
    · rw [if_pos hx] at h
      cases h
      subst hx
      rfl
    · rw [if_neg hx] at h
      rcases hm : splitNl rest with _ | ⟨l1, r1⟩ <;> rw [hm] at h
      · exact absurd h (by simp)
      · rw [Option.map_some'] at h
        have h2 := Option.some.inj h
        have ha : x :: l1 = a := congrArg Prod.fst h2
        have hb : r1 = b := congrArg Prod.snd h2
        subst ha
        subst hb
        rw [ih l1 r1 hm]
        rfl

theorem readline_consumes :
    ∀ (src : List (List Nat)) (buf : List Nat),
      lineBytes (SocketReader.readline src buf).1 ++ (SocketReader.readline src buf).2.2
          ++ bytesJoin (SocketReader.readline src buf).2.1
        = buf ++ bytesJoin src := by
  intro src
  induction src with
  | nil =>
    intro buf
    rcases hs : splitNl buf with _ | ⟨l, r⟩ <;>
      simp only [SocketReader.readline, hs, lineBytes, bytesJoin]
    · simp
    · rw [splitNl_eq buf l r hs]
      simp
  | cons c src' ih =>
    intro buf
    rcases hs : splitNl buf with _ | ⟨l, r⟩
    · by_cases hc : c = []
      · subst hc
        simp only [SocketReader.readline, hs, lineBytes, bytesJoin]
        simp
      · simp only [SocketReader.readline, hs, if_neg hc]
        have := ih (buf ++ c)
        simp only [SocketReader.readline] at this
        rw [this]
        simp [bytesJoin]
    · simp only [SocketReader.readline, hs, lineBytes, bytesJoin]
      rw [splitNl_eq buf l r hs]
      simp

theorem read_consumes :
    ∀ (src : List (List Nat)) (buf : List Nat) (n : Nat),
      (SocketReader.read src buf n).1 ++ (SocketReader.read src buf n).2.2
          ++ bytesJoin (SocketReader.read src buf n).2.1
        = buf ++ bytesJoin src := by
  intro src
  induction src with
  | nil =>
    intro buf n
    by_cases h : buf.length < n <;>
      simp [SocketReader.read, h, bytesJoin]
  | cons c src' ih =>
    intro buf n
    by_cases h : buf.length < n
    · by_cases hc : c = []
      · subst hc
        simp [SocketReader.read, h, bytesJoin]
      · simp only [SocketReader.read, if_pos h, if_neg hc]
        have := ih (buf ++ c) n
        simp only [SocketReader.read] at this
        rw [this]
        simp [bytesJoin]
    · simp [SocketReader.read, h, bytesJoin]

theorem runOps_consumes :
    ∀ (ops : List ReadOp) (src : List (List Nat)) (buf : List Nat),
      (runOps ops src buf).1 ++ (runOps ops src buf).2.2
          ++ bytesJoin (runOps ops src buf).2.1
        = buf ++ bytesJoin src := by
  intro ops
  induction ops with
  | nil => intro src buf; simp [runOps]
  | cons op ops' ih =>
    intro src buf
    cases op with
    | line =>
      have hr := readline_consumes src buf
      have hi := ih (SocketReader.readline src buf).2.1 (SocketReader.readline src buf).2.2
      simp only [runOps]
      simp only [List.append_assoc] at hr hi ⊢
      rw [hi]
      exact hr
    | exact n =>
      have hr := read_consumes src buf n
      have hi := ih (SocketReader.read src buf n).2.1 (SocketReader.read src buf n).2.2
      simp only [runOps]
      simp only [List.append_assoc] at hr hi ⊢
      rw [hi]
      exact hr

/-! ## Reader lemmas -/

theorem splitNl_append :
    ∀ a m l r : List Nat, splitNl a = some (l, r) → splitNl (a ++ m) = some (l, r ++ m) := by
  intro a
  induction a with
  | nil => intro m l r h; exact absurd h (by simp [splitNl])
  | cons x rest ih =>
    intro m l r h
    simp only [List.cons_append, splitNl, List.append_eq] at h ⊢
    by_cases hx : x = 10
    · rw [if_pos hx] at h ⊢
      cases h
      rfl
    · rw [if_neg hx] at h ⊢
      rcases hm : splitNl rest with _ | ⟨l1, r1⟩ <;> rw [hm] at h
      · exact absurd h (by simp)
      · rw [Option.map_some'] at h
        have h2 := Option.some.inj h
        have hl : x :: l1 = l := congrArg Prod.fst h2
        have hr : r1 = r := congrArg Prod.snd h2
        rw [ih m l1 r1 hm, Option.map_some', ← hl, ← hr]

theorem splitNl_first :
    ∀ a r : List Nat, (∀ b ∈ a, b ≠ 10) → splitNl (a ++ 10 :: r) = some (a, r) := by
  intro a
  induction a with
  | nil => intro r _; simp [splitNl]
  | cons x rest ih =>
    intro r h
    have hx : x ≠ 10 := h x (by simp)
    simp only [List.cons_append, splitNl, List.append_eq, if_neg hx]
    rw [ih r (fun b hb => h b (by simp [hb])), Option.map_some']

theorem readline_spec :
    ∀ (src : List (List Nat)) (buf l r : List Nat), (∀ c ∈ src, c ≠ []) →
      splitNl (buf ++ bytesJoin src) = some (l, r) →
      (SocketReader.readline src buf).1 = some l ∧
        (SocketReader.readline src buf).2.2
            ++ bytesJoin (SocketReader.readline src buf).2.1 = r := by
  intro src
  induction src with
  | nil =>
    intro buf l r _ h
    simp only [bytesJoin, List.append_nil] at h
    simp [SocketReader.readline, h, bytesJoin]
  | cons c src' ih =>
    intro buf l r hne h
    have hc : c ≠ [] := hne c (by simp)
    rcases hs : splitNl buf with _ | ⟨l0, r0⟩
    · simp only [SocketReader.readline, hs, if_neg hc]
      have hh : splitNl ((buf ++ c) ++ bytesJoin src') = some (l, r) := by
        rw [List.append_assoc, ← bytesJoin_cons]
        exact h
      have := ih (buf ++ c) l r (fun d hd => hne d (by simp [hd])) hh
      simp only [SocketReader.readline] at this
      exact this
    · have h2 := splitNl_append buf (bytesJoin (c :: src')) l0 r0 hs
      rw [h] at h2
      have h3 := Option.some.inj h2
      have hl : l = l0 := congrArg Prod.fst h3
      have hr : r = r0 ++ bytesJoin (c :: src') := congrArg Prod.snd h3
      simp only [SocketReader.readline, hs]
      exact ⟨by rw [hl], by rw [hr]⟩

theorem read_spec :
    ∀ (src : List (List Nat)) (buf : List Nat) (n : Nat), (∀ c ∈ src, c ≠ []) →
      (SocketReader.read src buf n).1 = (buf ++ bytesJoin src).take n ∧
        (SocketReader.read src buf n).2.2 ++ bytesJoin (SocketReader.read src buf n).2.1
          = (buf ++ bytesJoin src).drop n := by
  intro src
  induction src with
  | nil =>
    intro buf n _
    by_cases h : buf.length < n <;> simp [SocketReader.read, h, bytesJoin]
  | cons c src' ih =>
    intro buf n hne
    have hc : c ≠ [] := hne c (by simp)
    by_cases h : buf.length < n
    · simp only [SocketReader.read, if_pos h, if_neg hc]
      have := ih (buf ++ c) n (fun d hd => hne d (by simp [hd]))
      simp only [SocketReader.read] at this
      simpa [bytesJoin, List.append_assoc] using this
    · have hle : n ≤ buf.length := le_of_not_lt h
      simp only [SocketReader.read, if_neg h]
      constructor
      · rw [List.take_append_of_le_length hle]
      · rw [List.drop_append_of_le_length hle]

theorem readline_buf_some (src : List (List Nat)) (buf l r : List Nat)
    (hs : splitNl buf = some (l, r)) :
    SocketReader.readline src buf = (some l, src, r) := by
  cases src <;> simp [SocketReader.readline, hs]

theorem readline_nil_none (buf : List Nat) (hs : splitNl buf = none) :
    SocketReader.readline [] buf = (none, [], buf) := by
  simp [SocketReader.readline, hs]

theorem readline_cons_empty (src' : List (List Nat)) (buf : List Nat)
    (hs : splitNl buf = none) :
    SocketReader.readline ([] :: src') buf = (none, src', buf) := by
  simp [SocketReader.readline, hs]

theorem readline_cons_step (c : List Nat) (src' : List (List Nat)) (buf : List Nat)
    (hs : splitNl buf = none) (hc : c ≠ []) :
    SocketReader.readline (c :: src') buf = SocketReader.readline src' (buf ++ c) := by
  conv_lhs => rw [SocketReader.readline]
  rw [hs]
  simp [hc]

theorem read_enough (src : List (List Nat)) (buf : List Nat) (n : Nat)
    (h : ¬ buf.length < n) :
    SocketReader.read src buf n = (buf.take n, src, buf.drop n) := by
  cases src <;> simp [SocketReader.read, h]

theorem read_nil_short (buf : List Nat) (n : Nat) (h : buf.length < n) :
    SocketReader.read [] buf n = (buf.take n, [], buf.drop n) := by
  simp [SocketReader.read, h]

theorem read_cons_empty (src' : List (List Nat)) (buf : List Nat) (n : Nat)
    (h : buf.length < n) :
    SocketReader.read ([] :: src') buf n = (buf.take n, src', buf.drop n) := by
  simp [SocketReader.read, h]

theorem read_cons_step (c : List Nat) (src' : List (List Nat)) (buf : List Nat) (n : Nat)
    (h : buf.length < n) (hc : c ≠ []) :
    SocketReader.read (c :: src') buf n = SocketReader.read src' (buf ++ c) n := by
  conv_lhs => rw [SocketReader.read]
  rw [if_pos h]
  simp [hc]

theorem readline_src_sub :
    ∀ (src : List (List Nat)) (buf c : List Nat),
      c ∈ (SocketReader.readline src buf).2.1 → c ∈ src := by
  intro src
  induction src with
  | nil =>
    intro buf c h
    rcases hs : splitNl buf with _ | ⟨l0, r0⟩
    · rw [readline_nil_none buf hs] at h
      exact absurd h (by simp)
    · rw [readline_buf_some [] buf l0 r0 hs] at h
      exact h
  | cons c0 src' ih =>
    intro buf c h
    rcases hs : splitNl buf with _ | ⟨l0, r0⟩
    · by_cases hc : c0 = []
      · subst hc
        rw [readline_cons_empty src' buf hs] at h
        exact List.mem_cons_of_mem _ h
      · rw [readline_cons_step c0 src' buf hs hc] at h
        exact List.mem_cons_of_mem _ (ih (buf ++ c0) c h)
    · rw [readline_buf_some (c0 :: src') buf l0 r0 hs] at h
      exact h

theorem read_src_sub :
    ∀ (src : List (List Nat)) (buf : List Nat) (n : Nat) (c : List Nat),
      c ∈ (SocketReader.read src buf n).2.1 → c ∈ src := by
  intro src
  induction src with
  | nil =>
    intro buf n c h
    by_cases hb : buf.length < n
    · rw [read_nil_short buf n hb] at h
      exact absurd h (by simp)
    · rw [read_enough [] buf n hb] at h
      exact h
  | cons c0 src' ih =>
    intro buf n c h
    by_cases hb : buf.length < n
    · by_cases hc : c0 = []
      · subst hc
        rw [read_cons_empty src' buf n hb] at h
        exact List.mem_cons_of_mem _ h
      · rw [read_cons_step c0 src' buf n hb hc] at h
        exact List.mem_cons_of_mem _ (ih (buf ++ c0) n c h)
    · rw [read_enough (c0 :: src') buf n hb] at h
      exact h

theorem bytesJoin_eq_nil :
    ∀ s : List (List Nat), (∀ c ∈ s, c ≠ []) → bytesJoin s = [] → s = [] := by
  intro s h hj
  cases s with
  | nil => rfl
  | cons c rest =>
    have hc : c ≠ [] := h c (by simp)
    rw [bytesJoin_cons] at hj
    exact absurd (List.append_eq_nil.mp hj).1 hc

theorem read_short_closed :
    ∀ (src : List (List Nat)) (buf : List Nat) (n : Nat), (∀ c ∈ src, c ≠ []) →
      ((SocketReader.read src buf n).1).length < n →
      (SocketReader.read src buf n).2.1 = [] ∧
        (SocketReader.read src buf n).1 = buf ++ bytesJoin src := by
  intro src buf n hne hlen
  obtain ⟨h1, h2⟩ := read_spec src buf n hne
  rw [h1, List.length_take] at hlen
  have htl : (buf ++ bytesJoin src).length < n := by omega
  have hdrop : (buf ++ bytesJoin src).drop n = [] :=
    List.drop_eq_nil_of_le (le_of_lt htl)
  rw [hdrop] at h2
  have hj : bytesJoin (SocketReader.read src buf n).2.1 = [] :=
    (List.append_eq_nil.mp h2).2
  refine ⟨bytesJoin_eq_nil _ (fun c hc => hne c (read_src_sub src buf n c hc)) hj, ?_⟩
  rw [h1]
  exact List.take_of_length_le (le_of_lt htl)

theorem recvLoopF_nil : ∀ fuel rem : Nat, recvLoopF fuel [] [] rem = ([], [], []) := by
  intro fuel rem
  cases fuel with
  | zero => rfl
  | succ f =>
    rcases Nat.eq_zero_or_pos rem with h | h
    · subst h; rfl
    · have h0 : rem ≠ 0 := Nat.pos_iff_ne_zero.mp h
      have hm : 0 < min BUF_SIZE rem := lt_min (by norm_num [BUF_SIZE]) h
      have hr : SocketReader.read [] [] (min BUF_SIZE rem) = ([], [], []) := by
        simp [SocketReader.read, hm]
      simp [recvLoopF, h0, hr]

/-! ## Claim C1 -/

/-- C1: for every sequence of interleaved `readline` and exact-count
`read` calls of the client's `SocketReader` against any scripted byte
source, the concatenation of all bytes returned to callers — counting,
for each completed line, its discarded `\n` delimiter — followed by the
bytes still pending in the shared buffer and the unread remainder of the
source, is exactly the original source stream: the two read modes consume
one shared cursor left-to-right exactly once, no byte duplicated or
dropped, including when a line's newline arrives in the same chunk as
bytes of a preceding exact-count read. -/
theorem c1_shared_cursor_no_loss (ops : List ReadOp) (src : List (List Nat)) :
    (runOps ops src []).1 ++ (runOps ops src []).2.2
        ++ bytesJoin (runOps ops src []).2.1
      = bytesJoin src := by
  simpa using runOps_consumes ops src []

/-! ## Claim C2 -/

/-- C2 counterexample: against a stream that closes immediately after a
well-formed header declaring one payload byte, `recv_file` writes nothing
yet still reaches its success report (`some`), presenting a truncated
transfer as a completed file of the declared size. -/
theorem c2_truncation_counterexample :
    recvFile [strBytes "FILENAME f\n\n"] [] 1 = some (strBytes "f", [])
      ∧ ((strBytes "f", ([] : List Nat)).2).length ≠ 1 := by
  exact ⟨by decide, by decide⟩

/-- C2 (amended): the exact-count read indeed returns fewer than `n`
bytes only when the connection closes first — in which case it returns
every byte the source still had and the script is exhausted — but the
truncation is not signalled: for every positive declared size,
`recv_file` on a stream that ends right after the header reports success
with an empty payload instead of a truncated-transfer condition. -/
theorem c2_short_read_only_on_close :
    (∀ (src : List (List Nat)) (buf : List Nat) (n : Nat), (∀ c ∈ src, c ≠ []) →
        ((SocketReader.read src buf n).1).length < n →
        (SocketReader.read src buf n).2.1 = [] ∧
          (SocketReader.read src buf n).1 = buf ++ bytesJoin src) ∧
      ∀ size : Nat, 0 < size →
        recvFile [strBytes "FILENAME f\n\n"] [] size = some (strBytes "f", []) := by
  refine ⟨read_short_closed, ?_⟩
  intro size _
  have h1 : recvFile [strBytes "FILENAME f\n\n"] [] size
      = some (strBytes "f", (recvLoopF size [] [] size).1) := rfl
  rw [h1, recvLoopF_nil]

/-- C2 witness: the amended theorem applied at a closed source and at
declared size 1. -/
theorem c2_short_read_witness :
    (SocketReader.read [] [] 1).2.1 = [] ∧
      recvFile [strBytes "FILENAME f\n\n"] [] 1 = some (strBytes "f", []) :=
  ⟨(c2_short_read_only_on_close.1 [] [] 1 (by simp) (by decide)).1,
   c2_short_read_only_on_close.2 1 (by decide)⟩

/-! ## Claims C3 and C4 -/

/-- C3 counterexample: with no first client line at all (end-of-stream
right after `ASSIGNED`), the session still registers a cache record under
the provisional name and still sends the `HELLO` welcome (two lines sent
in total), contradicting the claimed direct transition to `Closed` with
no record and no `HELLO`. -/
theorem c3_counterexample :
    (handshake (strBytes "Client01") (strBytes "1.2.3.4:5") 0 none []).2.2
        = [(strBytes "Client01", ⟨strBytes "1.2.3.4:5", 0, none, true⟩)]
      ∧ ((handshake (strBytes "Client01") (strBytes "1.2.3.4:5") 0 none []).1).length = 2 := by
  exact ⟨by decide, by decide⟩

/-- C3 (amended): when the first client line is absent or does not match
`NAME <name>`, the session does not abort: it keeps the provisional
assigned name, registers a record under it, and sends the `HELLO`
welcome before entering the Serving loop. -/
theorem c3_malformed_first_line (assigned addr : List Nat) (now : Nat)
    (firstLine : Option (List Nat)) (cache : Cache)
    (h : ∀ l, firstLine = some l →
      (!l.isEmpty && (strBytes "NAME ").isPrefixOf l) = false) :
    handshake assigned addr now firstLine cache
      = ([strBytes "ASSIGNED " ++ assigned ++ [10],
          strBytes "HELLO " ++ assigned
            ++ strBytes ". Commands: status | list | get <file> | exit" ++ [10]],
         assigned, add_client_record assigned addr now cache) := by
  cases firstLine with
  | none => rfl
  | some l => simp [handshake, h l rfl]

/-- C3 witness: the amended theorem at an absent first line. -/
theorem c3_malformed_witness :
    handshake (strBytes "Client01") [] 0 none []
      = ([strBytes "ASSIGNED " ++ strBytes "Client01" ++ [10],
          strBytes "HELLO " ++ strBytes "Client01"
            ++ strBytes ". Commands: status | list | get <file> | exit" ++ [10]],
         strBytes "Client01", add_client_record (strBytes "Client01") [] 0 []) :=
  c3_malformed_first_line (strBytes "Client01") [] 0 none []
    (fun _ h => Option.noConfusion h)

/-- C4 counterexample: in Serving, a received empty line is not ignored:
`if not msg: break` fires on the empty string, so the loop sends no
response and closes the session instead of continuing. -/
theorem c4_counterexample :
    servingStep [] [] (some []) = StepRes.closed []
      ∧ servingStep [] [] (some []) ≠ StepRes.cont [] := by
  exact ⟨by decide, by decide⟩

/-- C4 (amended): in Serving, an empty line is handled exactly like
end-of-stream: no response is sent and the session transitions to
Closed, because `if not msg` is true both for `None` and for the empty
string. -/
theorem c4_empty_line_closes (repo : List (List Nat × List Nat)) (cache : Cache) :
    servingStep repo cache (some []) = StepRes.closed []
      ∧ servingStep repo cache none = StepRes.closed [] :=
  ⟨rfl, rfl⟩

/-! ## Claims C5, C6, C7 -/

theorem lookupC_add_self (c : Cache) (name addr : List Nat) (now : Nat) :
    lookupC (add_client_record name addr now c) name = some ⟨addr, now, none, true⟩ := by
  induction c with
  | nil => simp [add_client_record, lookupC]
  | cons kv rest ih =>
    obtain ⟨k, v⟩ := kv
    by_cases hk : k = name
    · simp [add_client_record, lookupC, hk]
    · simp [add_client_record, lookupC, hk, ih]

theorem lookupC_add_other (c : Cache) (name addr m : List Nat) (now : Nat)
    (hm : m ≠ name) :
    lookupC (add_client_record name addr now c) m = lookupC c m := by
  induction c with
  | nil => simp [add_client_record, lookupC, Ne.symm hm]
  | cons kv rest ih =>
    obtain ⟨k, v⟩ := kv
    by_cases hk : k = name
    · simp [add_client_record, lookupC, hk, Ne.symm hm]
    · simp [add_client_record, lookupC, hk, ih]

/-- C5 counterexample: registering the name `B` twice (the second session
claiming the same name via its `NAME` line) silently replaces the first
record — new address and connect time — rather than failing, so the
registry is not an overwrite-free append-only history. -/
theorem c5_counterexample :
    add_client_record [66] [1] 1 (add_client_record [66] [0] 0 [])
        = [([66], ⟨[1], 1, none, true⟩)]
      ∧ lookupC (add_client_record [66] [1] 1 (add_client_record [66] [0] 0 [])) [66]
          ≠ some ⟨[0], 0, none, true⟩ := by
  exact ⟨by decide, by decide⟩

/-- C5 (amended): `add_client_record` is a plain keyed assignment: it
installs a fresh active record for the registered name, silently
replacing any existing record for that name in place; every other name's
record is untouched, and no name is ever deleted (any name present
before a registration is still present after it). -/
theorem c5_registration_overwrites :
    (∀ (c : Cache) (name addr : List Nat) (now : Nat),
        lookupC (add_client_record name addr now c) name = some ⟨addr, now, none, true⟩) ∧
      (∀ (c : Cache) (name addr m : List Nat) (now : Nat), m ≠ name →
        lookupC (add_client_record name addr now c) m = lookupC c m) ∧
      ∀ (c : Cache) (name addr m : List Nat) (now : Nat),
        (lookupC c m).isSome → (lookupC (add_client_record name addr now c) m).isSome := by
  refine ⟨lookupC_add_self, lookupC_add_other, ?_⟩
  intro c name addr m now h
  by_cases hm : m = name
  · subst hm
    rw [lookupC_add_self]
    rfl
  · rw [lookupC_add_other c name addr m now hm]
    exact h

/-- C5 witness: the amended theorem at concrete registries. -/
theorem c5_overwrites_witness :
    lookupC (add_client_record [66] [7] 5 []) [66] = some ⟨[7], 5, none, true⟩
      ∧ lookupC (add_client_record [66] [7] 5 [([65], ⟨[], 0, none, true⟩)]) [65]
          = lookupC [([65], (⟨[], 0, none, true⟩ : ClientRecord))] [65]
      ∧ (lookupC (add_client_record [66] [7] 5 [([65], ⟨[], 0, none, true⟩)]) [65]).isSome :=
  ⟨c5_registration_overwrites.1 [] [66] [7] 5,
   c5_registration_overwrites.2.1 [([65], ⟨[], 0, none, true⟩)] [66] [7] [65] 5 (by decide),
   c5_registration_overwrites.2.2 [([65], ⟨[], 0, none, true⟩)] [66] [7] [65] 5 (by decide)⟩

/-- C6 counterexample: marking the same session disconnected twice with
distinct clock values is observable — the second call overwrites the
disconnect timestamp — so double deregistration is not equivalent to a
single one and an inactive record is not immutable. -/
theorem c6_counterexample :
    close_client_record [66] 2 (close_client_record [66] 1 (add_client_record [66] [] 0 []))
      ≠ close_client_record [66] 1 (add_client_record [66] [] 0 []) := by
  decide

/-- C6 (amended): a second disconnect marking keeps the record inactive
but overwrites `disconnected_at` with the later clock value: the double
call collapses to a single call at the second timestamp, so the
operation is idempotent only when both calls carry the same timestamp
(as when they fall within the same rendered second). -/
theorem c6_second_close_overwrites (c : Cache) (name : List Nat) (t1 t2 : Nat) :
    close_client_record name t2 (close_client_record name t1 c)
      = close_client_record name t2 c := by
  induction c with
  | nil => rfl
  | cons kv rest ih =>
    obtain ⟨k, v⟩ := kv
    by_cases hk : k = name
    · simp [close_client_record, hk]
    · simp [close_client_record, hk, ih]

/-- C7: when the count of active registry records has reached
`MAX_CLIENTS`, one accept-loop iteration writes exactly the single
capacity-rejection line to the new connection and closes it, leaving the
server state — counter and registry, hence the active count — unchanged
and spawning no session: no name is minted and no `ASSIGNED` line can
ever be sent on that connection. -/
theorem c7_capacity_rejection (st : ServerState)
    (h : MAX_CLIENTS ≤ current_active_count st.cache) :
    acceptStep st = (AcceptRes.rejected [capacityLine], st) := by
  simp [acceptStep, h]

/-- C7 witness: three active records fill the server; the fourth
connection is rejected with the state unchanged. -/
theorem c7_capacity_witness :
    acceptStep ⟨3, [([65], ⟨[], 0, none, true⟩), ([66], ⟨[], 0, none, true⟩),
        ([67], ⟨[], 0, none, true⟩)]⟩
      = (AcceptRes.rejected [capacityLine],
         ⟨3, [([65], ⟨[], 0, none, true⟩), ([66], ⟨[], 0, none, true⟩),
             ([67], ⟨[], 0, none, true⟩)]⟩) :=
  c7_capacity_rejection _ (by decide)

/-! ## Claim C9 -/

/-- C9: a `get <name>` command naming a blob absent from the repository
makes the Serving loop emit exactly the single text line
`ERROR File not found\n` — no header, no payload — and continue the
command loop without closing the session (the hypotheses say the
requested name is non-empty with no surrounding whitespace, so it
survives the `split`/`strip` parsing unchanged). -/
theorem c9_get_missing_file (repo : List (List Nat × List Nat)) (cache : Cache)
    (fname : List Nat)
    (habs : lookupRepo repo fname = none)
    (hstrip1 : fname.dropWhile (fun b => isWS b) = fname)
    (hstrip2 : fname.reverse.dropWhile (fun b => isWS b) = fname.reverse)
    (hne : fname ≠ []) :
    servingStep repo cache (some (strBytes "get " ++ fname))
      = StepRes.cont [strBytes "ERROR File not found\n"] := by
  cases fname with
  | nil => exact absurd rfl hne
  | cons f fs =>
    have hget : strBytes "get " = [103, 101, 116, 32] := by decide
    have hexit : strBytes "exit" = [101, 120, 105, 116] := by decide
    have hstatus : strBytes "status" = [115, 116, 97, 116, 117, 115] := by decide
    have hlist : strBytes "list" = [108, 105, 115, 116] := by decide
    have hm : strBytes "get " ++ (f :: fs) = 103 :: 101 :: 116 :: 32 :: f :: fs := by
      rw [hget]
      rfl
    rw [hm]
    simp only [servingStep]
    rw [if_neg (show ¬ (103 :: 101 :: 116 :: 32 :: f :: fs) = [] by simp)]
    rw [if_neg (show ¬ (103 :: 101 :: 116 :: 32 :: f :: fs) = strBytes "exit" by
      rw [hexit]; simp)]
    rw [if_neg (show ¬ (103 :: 101 :: 116 :: 32 :: f :: fs) = strBytes "status" by
      rw [hstatus]; simp)]
    rw [if_neg (show ¬ (103 :: 101 :: 116 :: 32 :: f :: fs) = strBytes "list" by
      rw [hlist]; simp)]
    rw [if_pos (show ((strBytes "get ").isPrefixOf (103 :: 101 :: 116 :: 32 :: f :: fs)) = true by
      rw [hget]; simp [List.isPrefixOf])]
    simp only [getOut, List.drop_succ_cons, List.drop_zero]
    rw [hstrip1]
    show StepRes.cont
        [send_file repo (((f :: fs).reverse.dropWhile (fun b => isWS b)).reverse)] = _
    rw [hstrip2, List.reverse_reverse]
    simp [send_file, habs]

/-- C9 witness: `get missing.txt` against the empty repository. -/
theorem c9_get_missing_witness :
    servingStep [] [] (some (strBytes "get " ++ strBytes "missing.txt"))
      = StepRes.cont [strBytes "ERROR File not found\n"] :=
  c9_get_missing_file [] [] (strBytes "missing.txt")
    (by decide) (by decide) (by decide) (by decide)

/-! ## Claim C10 -/

/-- C10: the client's file-receive path joins the server-declared
filename onto the downloads directory with no sanitization: for the
server-supplied name `../../secrets` the computed output path normalizes
to a location outside `downloads` (it starts with `..`), and an absolute
name such as `/etc/passwd` makes `os.path.join` discard the downloads
prefix entirely — so a malicious server can direct the client's write
beyond its download folder. -/
theorem c10_path_traversal :
    out_path (strBytes "../../secrets") = strBytes "downloads/../../secrets"
      ∧ normRel (out_path (strBytes "../../secrets")) = [strBytes "..", strBytes "secrets"]
      ∧ (normRel (out_path (strBytes "../../secrets"))).head? ≠ some (strBytes "downloads")
      ∧ out_path (strBytes "/etc/passwd") = strBytes "/etc/passwd" := by
  exact ⟨by decide, by decide, by decide, by decide⟩

/-! ## Decimal rendering and parsing lemmas -/

theorem decDigitsF_eq_digits :
    ∀ fuel n : Nat, n ≤ fuel →
      decDigitsF fuel n = (Nat.digits 10 n).map (fun d => d + 48) := by
  intro fuel
  induction fuel with
  | zero =>
    intro n hn
    have h0 : n = 0 := Nat.le_zero.mp hn
    subst h0
    simp [decDigitsF]
  | succ f ih =>
    intro n hn
    by_cases h0 : n = 0
    · subst h0; simp [decDigitsF]
    · have hpos : 0 < n := Nat.pos_of_ne_zero h0
      rw [Nat.digits_def' (by norm_num : (1:ℕ) < 10) hpos]
      simp only [decDigitsF, if_neg h0, List.map_cons]
      congr 1
      have hdiv : n / 10 ≤ f := by
        have := Nat.div_lt_self hpos (by norm_num : (1:ℕ) < 10)
        omega
      exact ih (n / 10) hdiv

theorem decBytes_digits (n : Nat) : ∀ b ∈ decBytes n, 48 ≤ b ∧ b ≤ 57 := by
  intro b hb
  by_cases h0 : n = 0
  · subst h0
    simp [decBytes] at hb
    omega
  · rw [decBytes, if_neg h0, decDigitsF_eq_digits n n le_rfl] at hb
    rw [List.mem_reverse, List.mem_map] at hb
    obtain ⟨d, hd, rfl⟩ := hb
    have := Nat.digits_lt_base (by norm_num : (1:ℕ) < 10) hd
    omega

theorem decBytes_ne_nil (n : Nat) : decBytes n ≠ [] := by
  by_cases h0 : n = 0
  · subst h0; simp [decBytes]
  · rw [decBytes, if_neg h0, decDigitsF_eq_digits n n le_rfl]
    simp [Nat.digits_ne_nil_iff_ne_zero, h0]

theorem parseDecimal_decBytes (n : Nat) : parseDecimal (decBytes n) = some n := by
  rw [parseDecimal, if_pos ⟨decBytes_ne_nil n, decBytes_digits n⟩]
  congr 1
  by_cases h0 : n = 0
  · subst h0; decide
  · rw [decBytes, if_neg h0, decDigitsF_eq_digits n n le_rfl]
    rw [List.map_reverse, List.reverse_reverse, List.map_map]
    have hid : ((fun b => b - 48) ∘ fun d => d + 48) = @id Nat := by
      funext d
      simp
    rw [hid, List.map_id]
    exact Nat.ofDigits_digits 10 n

theorem takeWhile_all (p : Nat → Bool) :
    ∀ l : List Nat, (∀ b ∈ l, p b = true) → List.takeWhile p l = l := by
  intro l
  induction l with
  | nil => intro _; rfl
  | cons x xs ih =>
    intro h
    rw [List.takeWhile_cons, if_pos (h x (by simp))]
    rw [ih (fun b hb => h b (by simp [hb]))]

theorem takeWhile_append_stop (p : Nat → Bool) :
    ∀ (a : List Nat) (y : Nat) (b : List Nat), (∀ x ∈ a, p x = true) → p y = false →
      List.takeWhile p (a ++ y :: b) = a := by
  intro a
  induction a with
  | nil => intro y b _ hy; simp [List.takeWhile_cons, hy]
  | cons x xs ih =>
    intro y b ha hy
    simp only [List.cons_append, List.takeWhile_cons, if_pos (ha x (by simp))]
    rw [ih y b (fun z hz => ha z (by simp [hz])) hy]

theorem isPrefixOf_append (p t : List Nat) : p.isPrefixOf (p ++ t) = true :=
  List.isPrefixOf_iff_prefix.mpr (List.prefix_append p t)

theorem parseSizeToken_header (n : Nat) :
    parseSizeToken (strBytes "FILESIZE " ++ decBytes n) = some n := by
  rw [parseSizeToken]
  have hdrop : (strBytes "FILESIZE " ++ decBytes n).drop 9 = decBytes n := by
    have h := List.drop_left (strBytes "FILESIZE ") (decBytes n)
    rwa [(by decide : (strBytes "FILESIZE ").length = 9)] at h
  rw [hdrop]
  have hnws : ∀ b ∈ decBytes n, isWS b = false := by
    intro b hb
    have := decBytes_digits n b hb
    simp only [isWS]
    simp
    omega
  have hdw : (decBytes n).dropWhile (fun b => isWS b) = decBytes n := by
    cases hd : decBytes n with
    | nil => rfl
    | cons b bs =>
      have hb : isWS b = false := hnws b (by rw [hd]; simp)
      simp [List.dropWhile_cons, hb]
  rw [hdw]
  rw [takeWhile_all _ _ (fun b hb => by simp [hnws b hb])]
  exact parseDecimal_decBytes n

theorem basenameBytes_repo (fname : List Nat) (h47 : ∀ b ∈ fname, b ≠ 47) :
    basenameBytes (strBytes "repo/" ++ fname) = fname := by
  rw [basenameBytes]
  have hrev : (strBytes "repo/" ++ fname).reverse
      = fname.reverse ++ 47 :: (strBytes "repo").reverse := by
    rw [(by decide : strBytes "repo/" = strBytes "repo" ++ [47])]
    simp
  rw [hrev]
  rw [takeWhile_append_stop _ fname.reverse 47 (strBytes "repo").reverse ?ha ?hy]
  · exact List.reverse_reverse fname
  case ha =>
    intro x hx
    rw [List.mem_reverse] at hx
    simp [h47 x hx]
  case hy => simp

/-! ## Payload-loop and round-trip lemmas -/

theorem recvLoopF_step_fst (f : Nat) (src : List (List Nat)) (buf : List Nat)
    (remaining : Nat) (h0 : remaining ≠ 0)
    (hne : (SocketReader.read src buf (min BUF_SIZE remaining)).1 ≠ []) :
    (recvLoopF (f + 1) src buf remaining).1
      = (SocketReader.read src buf (min BUF_SIZE remaining)).1
          ++ (recvLoopF f (SocketReader.read src buf (min BUF_SIZE remaining)).2.1
                (SocketReader.read src buf (min BUF_SIZE remaining)).2.2
                (remaining
                  - ((SocketReader.read src buf (min BUF_SIZE remaining)).1).length)).1 := by
  simp [recvLoopF, h0, hne]

theorem recvLoopF_spec :
    ∀ (fuel : Nat) (src : List (List Nat)) (buf : List Nat) (remaining : Nat),
      (∀ c ∈ src, c ≠ []) → remaining ≤ fuel →
      remaining ≤ (buf ++ bytesJoin src).length →
      (recvLoopF fuel src buf remaining).1 = (buf ++ bytesJoin src).take remaining := by
  intro fuel
  induction fuel with
  | zero =>
    intro src buf remaining _ hf _
    have h0 : remaining = 0 := Nat.le_zero.mp hf
    subst h0
    rfl
  | succ f ih =>
    intro src buf remaining hch hf hlen
    by_cases h0 : remaining = 0
    · subst h0; rfl
    · have hpos : 0 < remaining := Nat.pos_of_ne_zero h0
      have hm0 : 0 < min BUF_SIZE remaining := lt_min (by norm_num [BUF_SIZE]) hpos
      have hmle : min BUF_SIZE remaining ≤ remaining := min_le_right _ _
      obtain ⟨hr1, hr2⟩ := read_spec src buf (min BUF_SIZE remaining) hch
      have htpos : 0 < (buf ++ bytesJoin src).length := lt_of_lt_of_le hpos hlen
      have hne : (SocketReader.read src buf (min BUF_SIZE remaining)).1 ≠ [] := by
        rw [hr1]
        apply List.length_pos.mp
        rw [List.length_take]
        omega
      have hlen1 : ((SocketReader.read src buf (min BUF_SIZE remaining)).1).length
          = min BUF_SIZE remaining := by
        rw [hr1, List.length_take]
        omega
      rw [recvLoopF_step_fst f src buf remaining h0 hne, hlen1]
      have hch2 : ∀ c ∈ (SocketReader.read src buf (min BUF_SIZE remaining)).2.1, c ≠ [] :=
        fun c hc => hch c (read_src_sub src buf (min BUF_SIZE remaining) c hc)
      have hlen2 : remaining - min BUF_SIZE remaining
          ≤ ((SocketReader.read src buf (min BUF_SIZE remaining)).2.2
              ++ bytesJoin (SocketReader.read src buf (min BUF_SIZE remaining)).2.1).length := by
        rw [hr2, List.length_drop]
        omega
      rw [ih (SocketReader.read src buf (min BUF_SIZE remaining)).2.1
            (SocketReader.read src buf (min BUF_SIZE remaining)).2.2
            (remaining - min BUF_SIZE remaining) hch2 (by omega) hlen2]
      rw [hr1, hr2]
      rw [← List.take_add]
      congr 1
      omega

/-- Unfolds `recvFile` once the `FILENAME` line is known to parse. -/
theorem recvFile_eq_of_header (src : List (List Nat)) (buf : List Nat) (size : Nat)
    (fl : List Nat) (hl : (SocketReader.readline src buf).1 = some fl)
    (hpre : (strBytes "FILENAME ").isPrefixOf fl = true) :
    recvFile src buf size
      = some (fl.drop 9,
          (recvLoopF size
            (SocketReader.readline (SocketReader.readline src buf).2.1
              (SocketReader.readline src buf).2.2).2.1
            (SocketReader.readline (SocketReader.readline src buf).2.1
              (SocketReader.readline src buf).2.2).2.2
            size).1) := by
  simp [recvFile, recvLoop, hl, hpre]

/-- Unfolds the client's dispatch once the `FILESIZE` line is known to
parse. -/
theorem clientRecvTransfer_eq (src : List (List Nat)) (line : List Nat)
    (hl : (SocketReader.readline src []).1 = some line)
    (hpre : (strBytes "FILESIZE ").isPrefixOf line = true)
    (size : Nat) (hp : parseSizeToken line = some size) :
    clientRecvTransfer src
      = recvFile (SocketReader.readline src []).2.1 (SocketReader.readline src []).2.2
          size := by
  simp [clientRecvTransfer, hl, hpre, hp]

/-- `recv_file` against any chunking of the byte stream
`FILENAME <name>\n\n<content>`, asked for exactly `content.length`
payload bytes, returns the declared name and the full content. -/
theorem recvFile_of_stream (src : List (List Nat)) (buf name content : List Nat)
    (hch : ∀ c ∈ src, c ≠ [])
    (h10 : ∀ b ∈ name, b ≠ 10)
    (htot : buf ++ bytesJoin src
      = strBytes "FILENAME " ++ name ++ 10 :: 10 :: content) :
    recvFile src buf content.length = some (name, content) := by
  have hno10 : ∀ b ∈ strBytes "FILENAME " ++ name, b ≠ 10 := by
    intro b hb
    rcases List.mem_append.mp hb with h | h
    · exact (by decide : ∀ b ∈ strBytes "FILENAME ", b ≠ 10) b h
    · exact h10 b h
  have hsplit1 : splitNl (buf ++ bytesJoin src)
      = some (strBytes "FILENAME " ++ name, 10 :: content) := by
    rw [htot]
    have h := splitNl_first (strBytes "FILENAME " ++ name) (10 :: content) hno10
    simpa [List.append_assoc] using h
  obtain ⟨hl1, hr1⟩ := readline_spec src buf _ _ hch hsplit1
  have hch2 : ∀ c ∈ (SocketReader.readline src buf).2.1, c ≠ [] :=
    fun c hc => hch c (readline_src_sub src buf c hc)
  have hsplit2 : splitNl ((SocketReader.readline src buf).2.2
      ++ bytesJoin (SocketReader.readline src buf).2.1) = some ([], content) := by
    rw [hr1]
    simp [splitNl]
  obtain ⟨hl2, hr2⟩ := readline_spec _ _ _ _ hch2 hsplit2
  have hch3 : ∀ c ∈ (SocketReader.readline (SocketReader.readline src buf).2.1
      (SocketReader.readline src buf).2.2).2.1, c ≠ [] :=
    fun c hc => hch2 c (readline_src_sub _ _ c hc)
  have hloop := recvLoopF_spec content.length
    (SocketReader.readline (SocketReader.readline src buf).2.1
      (SocketReader.readline src buf).2.2).2.1
    (SocketReader.readline (SocketReader.readline src buf).2.1
      (SocketReader.readline src buf).2.2).2.2
    content.length hch3 le_rfl (by rw [hr2])
  rw [recvFile_eq_of_header src buf content.length (strBytes "FILENAME " ++ name) hl1
      (isPrefixOf_append _ _)]
  rw [hloop, hr2, List.take_length]
  have hdrop : (strBytes "FILENAME " ++ name).drop 9 = name := by
    have h := List.drop_left (strBytes "FILENAME ") name
    rwa [(by decide : (strBytes "FILENAME ").length = 9)] at h
  rw [hdrop]

/-! ## Claim C8 -/

/-- C8: round-trip through the file-transfer codec.  For every repository
blob (any size: zero, one, below one chunk, or spanning many `BUF_SIZE`
chunks) whose name is newline- and slash-free, the byte stream `send_file`
emits — header `FILESIZE <size>\nFILENAME <name>\n\n` followed by exactly
the content, no trailer — fed to the client in any chunking, makes the
client's receive path report exactly the declared name with an output
byte-identical to the blob (hence exactly `size` bytes long). -/
theorem c8_codec_roundtrip (repo : List (List Nat × List Nat))
    (fname content : List Nat) (chunks : List (List Nat))
    (hlook : lookupRepo repo fname = some content)
    (h10 : ∀ b ∈ fname, b ≠ 10)
    (h47 : ∀ b ∈ fname, b ≠ 47)
    (hch : ∀ c ∈ chunks, c ≠ [])
    (hwire : bytesJoin chunks = send_file repo fname) :
    clientRecvTransfer chunks = some (fname, content) := by
  have hsend : send_file repo fname = sendFileBytes fname content := by
    simp [send_file, hlook, basenameBytes_repo fname h47]
  rw [hsend] at hwire
  have hfs10 : ∀ b ∈ strBytes "FILESIZE " ++ decBytes content.length, b ≠ 10 := by
    intro b hb
    rcases List.mem_append.mp hb with h | h
    · exact (by decide : ∀ b ∈ strBytes "FILESIZE ", b ≠ 10) b h
    · have := decBytes_digits content.length b h
      omega
  have hsplit : splitNl ([] ++ bytesJoin chunks)
      = some (strBytes "FILESIZE " ++ decBytes content.length,
              strBytes "FILENAME " ++ fname ++ 10 :: 10 :: content) := by
    rw [List.nil_append, hwire, sendFileBytes]
    have h := splitNl_first (strBytes "FILESIZE " ++ decBytes content.length)
      (strBytes "FILENAME " ++ fname ++ 10 :: 10 :: content) hfs10
    simpa [List.append_assoc] using h
  obtain ⟨hl1, hr1⟩ := readline_spec chunks [] _ _ hch hsplit
  rw [clientRecvTransfer_eq chunks (strBytes "FILESIZE " ++ decBytes content.length) hl1
      (isPrefixOf_append _ _) content.length (parseSizeToken_header content.length)]
  have hch2 : ∀ c ∈ (SocketReader.readline chunks []).2.1, c ≠ [] :=
    fun c hc => hch c (readline_src_sub chunks [] c hc)
  exact recvFile_of_stream (SocketReader.readline chunks []).2.1
    (SocketReader.readline chunks []).2.2 fname content hch2 h10 hr1

/-- C8 witness: a three-byte blob (containing a raw newline byte) sent
and received across an awkward chunk boundary that splits the payload. -/
theorem c8_codec_roundtrip_witness :
    clientRecvTransfer [strBytes "FILESIZE 3\nFILENAME f.bin\n\n" ++ [0, 10], [255]]
      = some (strBytes "f.bin", [0, 10, 255]) :=
  c8_codec_roundtrip [(strBytes "f.bin", [0, 10, 255])] (strBytes "f.bin") [0, 10, 255]
    [strBytes "FILESIZE 3\nFILENAME f.bin\n\n" ++ [0, 10], [255]]
    (by decide) (by decide) (by decide) (by decide) (by decide)
